import Mathlib

/-!
Verification of the QSL card generator's layout and text-normalization core
(`qsl_generator.py`).  Python strings are modelled as Lean `String`/`List Char`,
Python ints as `ℤ`/`ℕ` (Python `//` is `Int.fdiv`, `int()` truncation is
`Int.tdiv`).  Python floats are idealized as exact decimal numbers `Dec`
(integer mantissa over a power-of-ten denominator); every float appearing in
the program's data path is a parsed decimal literal, so this is exact.
Contact dictionaries are modelled as a structure of the conventional fields,
an absent key being the empty string.
-/

/-- A raw contact record: the lower-cased, trimmed CSV fields the generator
reads via `contact.get(key, '')`; a missing key is the empty string. -/
structure Contact where
  call : String
  qso_date : String
  time_on : String
  freq : String
  mode : String
  submode : String
  rst_sent : String
  rst_rcvd : String
  band : String
  pota_ref : String
  comment_intl : String
deriving DecidableEq, Repr

/-- An exact decimal number `num / 10 ^ exp`, the idealization of the Python
floats flowing through the generator. -/
structure Dec where
  num : ℤ
  exp : ℕ
deriving DecidableEq, Repr

/-- The rational value of a decimal number. -/
def Dec.val (x : Dec) : ℚ :=
  (x.num : ℚ) / (10 : ℚ) ^ x.exp

/-- Strict comparison of decimal numbers by cross-multiplication. -/
def decLT (a b : Dec) : Bool :=
  decide (a.num * (10 : ℤ) ^ b.exp < b.num * (10 : ℤ) ^ a.exp)

/-- Non-strict comparison of decimal numbers by cross-multiplication. -/
def decLE (a b : Dec) : Bool :=
  decide (a.num * (10 : ℤ) ^ b.exp ≤ b.num * (10 : ℤ) ^ a.exp)

/-- Division of a decimal number by 1000 (exact: grows the denominator). -/
def Dec.div1000 (x : Dec) : Dec :=
  ⟨x.num, x.exp + 3⟩

/-- Round a decimal number to the nearest integer, ties to even: the rounding
used by Python float formatting (`.3f`, `.0f`). -/
def Dec.rhe (x : Dec) : ℤ :=
  let d : ℤ := (10 : ℤ) ^ x.exp
  let f := x.num.fdiv d
  let r2 := 2 * (x.num - f * d)
  if r2 < d then f else if d < r2 then f + 1 else if f % 2 = 0 then f else f + 1

/-- Python `int()` applied to a decimal number: truncation toward zero. -/
def Dec.pyInt (x : Dec) : ℤ :=
  x.num.tdiv ((10 : ℤ) ^ x.exp)

/-- Value of a digit string, most significant first. -/
def digitsVal (l : List Char) : ℕ :=
  l.foldl (fun a c => 10 * a + (c.toNat - 48)) 0

/-- Exponent part of a Python float literal: optional sign then digits,
nothing may follow. -/
def parseExpPart (mant : Dec) (l : List Char) : Option Dec :=
  let p := match l with
    | '+' :: rest => (true, rest)
    | '-' :: rest => (false, rest)
    | _ => (true, l)
  let ed := p.2.takeWhile Char.isDigit
  let rest := p.2.dropWhile Char.isDigit
  if ed.length = 0 ∨ rest ≠ [] then none
  else if p.1 then some ⟨mant.num * (10 : ℤ) ^ digitsVal ed, mant.exp⟩
  else some ⟨mant.num, mant.exp + digitsVal ed⟩

/-- Model of Python `float(s)` on a character list: optional sign, digits with
at most one decimal point (at least one digit overall), optional exponent. -/
def parseFloatChars (l : List Char) : Option Dec :=
  let p := match l with
    | '+' :: rest => ((1 : ℤ), rest)
    | '-' :: rest => ((-1 : ℤ), rest)
    | _ => ((1 : ℤ), l)
  let d1 := p.2.takeWhile Char.isDigit
  let l2 := p.2.dropWhile Char.isDigit
  let q := match l2 with
    | '.' :: rest => (rest.takeWhile Char.isDigit, rest.dropWhile Char.isDigit)
    | _ => (([] : List Char), l2)
  if d1.length + q.1.length = 0 then none
  else
    let mant : Dec := ⟨p.1 * (digitsVal (d1 ++ q.1) : ℤ), q.1.length⟩
    match q.2 with
    | [] => some mant
    | 'e' :: rest => parseExpPart mant rest
    | 'E' :: rest => parseExpPart mant rest
    | _ => none

/-- Whitespace trimming on a character list (Python `str.strip()`). -/
def trimChars (l : List Char) : List Char :=
  ((l.dropWhile Char.isWhitespace).reverse.dropWhile Char.isWhitespace).reverse

/-- Model of Python `float(s)` (which ignores surrounding whitespace). -/
def parseFloatQ (s : String) : Option Dec :=
  parseFloatChars (trimChars s.data)

/-- Left-pad a fractional part below 1000 to exactly three digits. -/
def padFrac3 (n : ℕ) : String :=
  if n < 10 then "00" ++ toString n else if n < 100 then "0" ++ toString n else toString n

/-- Model of Python `f"{q:.3f}"`: exactly three fractional digits. -/
def fmt3 (x : Dec) : String :=
  let n := Dec.rhe ⟨x.num * 1000, x.exp⟩
  (if n < 0 then "-" else "") ++ toString (n.natAbs / 1000) ++ "." ++ padFrac3 (n.natAbs % 1000)

/-- Model of Python `f"{q:.0f}"`: round to an integer. -/
def fmt0 (x : Dec) : String :=
  let n := Dec.rhe x
  (if n < 0 then "-" else "") ++ toString n.natAbs

/-- The literal decimal 1000, the kHz-versus-MHz threshold. -/
def dec1000 : Dec := ⟨1000, 0⟩

/-- `format_freq` from `format_data` (qsl_generator.py lines 896-903). -/
def format_freq (s : String) : String :=
  if s = "" then "?"
  else
    match parseFloatQ s with
    | none => s.take 8
    | some q => if decLT dec1000 q then fmt3 q.div1000 else fmt3 q

/-- The separator stripping of `format_time`: remove every `:` and `.` (a
single-character `str.replace` with `''` removes all occurrences), then strip
surrounding whitespace (qsl_generator.py line 893). -/
def stripTime (s : String) : String :=
  String.mk (trimChars ((s.data.filter (fun c => !(c == ':'))).filter (fun c => !(c == '.'))))

/-- `format_time` from `format_data` (qsl_generator.py lines 890-894).  The
emptiness test runs on the ORIGINAL string, before separator stripping. -/
def format_time (s : String) : String :=
  if s = "" then "?"
  else
    let clean := stripTime s
    if clean.length = 3 then "0" ++ clean
    else if 4 ≤ clean.length then clean.take 4
    else s.take 4

/-- Python string slicing `s[:n]` on the character level. -/
def takeChars (n : ℕ) (s : String) : String :=
  String.mk (s.data.take n)

/-- Uppercase normalization applied to mode and submode:
`x.strip().upper()`. -/
def umode (s : String) : String :=
  String.mk ((trimChars s.data).map Char.toUpper)

/-- Plain `str.upper()`. -/
def pyUpper (s : String) : String :=
  String.mk (s.data.map Char.toUpper)

/-- The default `modes.special_handling` table (qsl_generator.py lines
310-317), an ordered association list with distinct keys. -/
def special_handling : List (String × String) :=
  [("FT8", "FT8"), ("MFSK/FT4", "FT4"), ("SSB/USB", "USB"), ("SSB/LSB", "LSB"),
   ("PHONE/USB", "USB"), ("PHONE/LSB", "LSB")]

/-- The default `modes.digital_main` set (qsl_generator.py lines 289-295). -/
def digital_main : List String :=
  ["MFSK", "PSK", "RTTY", "DATA", "DIGITAL"]

/-- Dictionary lookup in the special-handling table. -/
def lookupSpecial (k : String) : Option String :=
  (special_handling.find? (fun p => p.1 == k)).map Prod.snd

/-- `format_mode` from `format_data` (qsl_generator.py lines 905-921), over
the default configuration tables. -/
def format_mode (mode submode : String) : String :=
  if mode = "" then "?"
  else
    let m := umode mode
    let sm := umode submode
    match lookupSpecial m with
    | some v => v
    | none =>
      match lookupSpecial (m ++ "/" ++ sm) with
      | some v => v
      | none =>
        if m ∈ digital_main then (if sm ≠ "" then sm else m)
        else if sm ≠ "" ∧ sm ≠ m then takeChars 10 (m ++ "/" ++ sm) else takeChars 8 m

/-- The default band table (qsl_generator.py lines 319-365): ordered
`(minMHz, maxMHz, label)` triples, decimals written exactly
(1.8, 2.0, 3.5, 4.0, 7.0, 7.3, 14.0, 14.35, 21.0, 21.45, 28.0, 29.7,
50.0, 54.0, 144.0, 148.0, 420.0, 450.0). -/
def bands : List (Dec × Dec × String) :=
  [(⟨18, 1⟩, ⟨2, 0⟩, "160m"), (⟨35, 1⟩, ⟨4, 0⟩, "80m"), (⟨7, 0⟩, ⟨73, 1⟩, "40m"),
   (⟨14, 0⟩, ⟨1435, 2⟩, "20m"), (⟨21, 0⟩, ⟨2145, 2⟩, "15m"), (⟨28, 0⟩, ⟨297, 1⟩, "10m"),
   (⟨50, 0⟩, ⟨54, 0⟩, "6m"), (⟨144, 0⟩, ⟨148, 0⟩, "2m"), (⟨420, 0⟩, ⟨450, 0⟩, "70cm")]

/-- Scan of the band table in order; the first matching range wins, otherwise
the computed `f"{freq:.0f}MHz"` fallback (qsl_generator.py lines 928-931). -/
def bandLookup (freq : Dec) : String :=
  match bands.find? (fun b => decLE b.1 freq && decLE freq b.2.1) with
  | some b => b.2.2
  | none => fmt0 freq ++ "MHz"

/-- `get_band` from `format_data` (qsl_generator.py lines 923-933): any parse
failure is caught by the bare `except` and yields the empty string. -/
def get_band (s : String) : String :=
  if s = "" then ""
  else
    match parseFloatQ s with
    | none => ""
    | some v => bandLookup (if decLT dec1000 v then v.div1000 else v)

/-- Band resolution in `format_data` (qsl_generator.py line 942):
`contact.get('band', '') or get_band(contact.get('freq', ''))`. -/
def resolveBand (explicitBand freqRaw : String) : String :=
  if explicitBand ≠ "" then explicitBand else get_band freqRaw

/-- The grouping key of `generate_cards`: `contact.get('call', '').upper()`
(qsl_generator.py line 1342). -/
def upperCall (c : Contact) : String :=
  pyUpper c.call

/-- One step of building the insertion-ordered grouping dictionary: append the
record to its callsign's group, or open a new group at the end (the behavior
of `defaultdict(list)` under Python's insertion-ordered dictionaries). -/
def insertGrouped (k : String) (c : Contact) : List (String × List Contact) → List (String × List Contact)
  | [] => [(k, [c])]
  | g :: rest => if g.1 = k then (g.1, g.2 ++ [c]) :: rest else g :: insertGrouped k c rest

/-- The grouping loop of `generate_cards` (qsl_generator.py lines 1340-1343):
group contacts by uppercased callsign, insertion order preserved. -/
def groupByCall (l : List Contact) : List (String × List Contact) :=
  l.foldl (fun acc c => insertGrouped (upperCall c) c acc) []

/-- The record list stored under a key of the grouping dictionary (empty when
the key is absent). -/
def findGroup (k : String) : List (String × List Contact) → List Contact
  | [] => []
  | g :: rest => if g.1 = k then g.2 else findGroup k rest

/-- Fuel-driven worker for `chunks`; the fuel only needs to cover the list
length when the chunk size is positive. -/
def chunksAux (n : ℕ) : ℕ → List Contact → List (List Contact)
  | 0, _ => []
  | _, [] => []
  | fuel + 1, x :: xs => List.take n (x :: xs) :: chunksAux n fuel (List.drop n (x :: xs))

/-- The chunking loop of `generate_cards` (qsl_generator.py lines 1352-1354):
`contacts[i:i+max_contacts]` for `i in range(0, len(contacts), max_contacts)`.
A chunk size of 0 raises in Python (`range` step 0) and yields no chunks
here; the generator always runs with `max_contacts ≥ 1`. -/
def chunks (n : ℕ) (l : List Contact) : List (List Contact) :=
  match n with
  | 0 => []
  | m + 1 => chunksAux (m + 1) l.length l

/-- Number of cards saved by `generate_cards` (qsl_generator.py lines
1348-1381): one card per chunk of each callsign's group. -/
def totalCards (P : ℕ) (l : List Contact) : ℕ :=
  ((groupByCall l).map (fun g => (chunks P g.2).length)).sum

/-- First-seen deduplication of a key sequence, relative to keys already
seen: the order in which a Python dict acquires its keys. -/
def firstSeenAux (seen : List String) : List String → List String
  | [] => []
  | a :: l => if a ∈ seen then firstSeenAux seen l else a :: firstSeenAux (a :: seen) l

/-- First-seen order of a key sequence. -/
def firstSeen (l : List String) : List String :=
  firstSeenAux [] l

/-- The confirmation banner body built by `create_qsl_card`
(qsl_generator.py line 1309). -/
def confirmBase (totalQsos : ℕ) (callsign : String) : String :=
  "QSL - Confirming " ++ toString totalQsos ++ " QSO" ++
    (if 1 < totalQsos then "s" else "") ++ " with " ++ pyUpper callsign

/-- The full confirmation text: the card counter is appended exactly when the
callsign spans more than one card (qsl_generator.py lines 1310-1311). -/
def confirmText (totalQsos : ℕ) (callsign : String) (cardNumber totalCards : ℕ) : String :=
  if 1 < totalCards then
    confirmBase totalQsos callsign ++ " (Card " ++ toString cardNumber ++ " of " ++
      toString totalCards ++ ")"
  else confirmBase totalQsos callsign

/-- The confirmation text drawn by `create_qsl_card` (qsl_generator.py lines
1294-1311): drawn only when `table_y > 100`; the QSO count is
`total_contacts_for_callsign or len(contacts_for_card)` with
`contacts_for_card = contacts[:max_contacts]`. -/
def qslConfirmText (tableY : ℤ) (maxContacts : ℕ) (callsign : String) (chunk : List Contact)
    (cardNum totalCardCount totalForCallsign : ℕ) : Option String :=
  if 100 < tableY then
    some (confirmText
      (if totalForCallsign = 0 then (chunk.take maxContacts).length else totalForCallsign)
      callsign cardNum totalCardCount)
  else none

/-- The per-chunk confirmation texts produced for one callsign's group by the
card loop of `generate_cards` (qsl_generator.py lines 1360-1363): chunk `i`
becomes card `i+1` of the chunk count, and the QSO count passed is the whole
group's length. -/
def chunkCards (tableY : ℤ) (maxContacts : ℕ) (callsign : String) (g : List Contact)
    (P : ℕ) : List (Option String) :=
  (chunks P g).enum.map
    (fun p => qslConfirmText tableY maxContacts callsign p.2 (p.1 + 1) (chunks P g).length g.length)

/-- The row-height computation of `draw_contact_table` (qsl_generator.py
lines 991-995): `max_contacts_on_page = min(len(contacts), cfg.max_contacts)`,
then a floor-division headroom formula clamped between the configured
minimum and maximum. -/
def row_height (table_height header_height min_rh max_rh : ℤ) (nContacts maxContacts : ℕ) : ℤ :=
  let mc : ℤ := min (nContacts : ℤ) (maxContacts : ℤ)
  min (max min_rh ((table_height - header_height - 20).fdiv (mc + 1))) max_rh

/-- The bottom-Y value returned by `draw_contact_table` (qsl_generator.py
line 1044): `header_y + header_height + max_contacts_on_page * row_height +
10`, with `header_y = table_y = int(card_height * y_percent)` and
`table_height = int(card_height * height_percent)`. -/
def draw_contact_table_return (cardH : ℤ) (yPercent heightPercent : Dec)
    (headerH minRH maxRH : ℤ) (maxContacts nContacts : ℕ) : ℤ :=
  let table_y := Dec.pyInt ⟨cardH * yPercent.num, yPercent.exp⟩
  let table_height := Dec.pyInt ⟨cardH * heightPercent.num, heightPercent.exp⟩
  let mc : ℤ := min (nContacts : ℤ) (maxContacts : ℤ)
  table_y + headerH + mc * row_height table_height headerH minRH maxRH nContacts maxContacts + 10

/-- The vertical origin of the additional-info section (qsl_generator.py
lines 1063-1066): `table_y + table_height + y_offset - 25`, entirely from
configuration. -/
def additional_info_section_y (cardH : ℤ) (yPercent heightPercent : Dec) (yOffset : ℤ) : ℤ :=
  Dec.pyInt ⟨cardH * yPercent.num, yPercent.exp⟩ +
    Dec.pyInt ⟨cardH * heightPercent.num, heightPercent.exp⟩ + yOffset - 25

/-- One truncation step of the info panel's iterative-fit loops: drop the
last four characters, append a three-character ellipsis (`s[:-4] + "..."`). -/
def truncStep (s : List Char) : List Char :=
  s.take (s.length - 4) ++ ['.', '.', '.']

/-- The iterative-fit loop on the `date_band` string (qsl_generator.py lines
1215-1221): truncate while the measured width exceeds the limit and more
than five characters remain. -/
def fitLoop5 (measure : List Char → ℕ) (limit : ℤ) (s : List Char) : List Char :=
  if _h : limit < (measure s : ℤ) ∧ 5 < s.length then fitLoop5 measure limit (truncStep s) else s
termination_by s.length
decreasing_by
  simp only [truncStep, List.length_append, List.length_take, List.length_cons,
    List.length_nil]
  omega

/-- The iterative-fit loop on the POTA string (qsl_generator.py lines
1275-1281): same shape with an eight-character floor. -/
def fitLoop8 (measure : List Char → ℕ) (limit : ℤ) (s : List Char) : List Char :=
  if _h : limit < (measure s : ℤ) ∧ 8 < s.length then fitLoop8 measure limit (truncStep s) else s
termination_by s.length
decreasing_by
  simp only [truncStep, List.length_append, List.length_take, List.length_cons,
    List.length_nil]
  omega

/-- The `date_band` truncation of `draw_additional_info_section`
(qsl_generator.py lines 1213-1221): enter the loop when the measured width
exceeds `colDiff - 10` (the space before the comment column), loop against
`colDiff - 20`. -/
def truncate_date_band (measure : List Char → ℕ) (colDiff : ℤ) (s : List Char) : List Char :=
  if colDiff - 10 < (measure s : ℤ) then fitLoop5 measure (colDiff - 20) s else s

/-- The POTA truncation of `draw_additional_info_section` (qsl_generator.py
lines 1273-1281): enter when the measured width exceeds the available POTA
width, loop against that width minus 20. -/
def truncate_pota (measure : List Char → ℕ) (maxPotaWidth : ℤ) (s : List Char) : List Char :=
  if maxPotaWidth < (measure s : ℤ) then fitLoop8 measure (maxPotaWidth - 20) s else s

/-- The measurement estimate the code falls back to when `textbbox` fails:
seven pixels per character (`len(text) * 7`). -/
def fallbackMeasure (s : List Char) : ℕ :=
  s.length * 7

/-- The default `additional_info.default_messages` list (qsl_generator.py
lines 203-214). -/
def default_messages : List String :=
  ["Thanks for the contact(s)!", "73 and thanks for the QSO!", "Great contacts today!",
   "Happy to work you!", "Thanks for the chat!", "Hope to catch you again on the other bands!",
   "Enjoyed our QSO!", "Thanks for stopping by!", "Always a pleasure!", "See you on the bands!"]

/-- Truthiness of a contact's auxiliary data:
`c.get('pota_ref') or c.get('comment_intl')`. -/
def hasAux (c : Contact) : Bool :=
  !(c.pota_ref == "") || !(c.comment_intl == "")

/-- `has_additional_info` over the page's contacts (qsl_generator.py
line 1052). -/
def has_additional_info (contacts : List Contact) : Bool :=
  contacts.any hasAux

/-- `contacts_with_info` (qsl_generator.py lines 1094-1095): contacts of the
first `max_contacts` rows carrying auxiliary data. -/
def contacts_with_info (contacts : List Contact) (maxContacts : ℕ) : List Contact :=
  (contacts.take maxContacts).filter hasAux

/-- The default message drawn by `draw_additional_info_section`
(qsl_generator.py lines 1051-1129), `none` when the fallback path is not
taken.  The single `random.choice` draw from the global unseeded generator is
modelled by the index `draw` consumed from that generator's stream:
`random.choice(msgs)` picks `msgs[draw % len(msgs)]`. -/
def infoPanelDefaultMsg (contacts : List Contact) (maxContacts : ℕ) (showDefault : Bool)
    (msgs : List String) (fallback : String) (draw : ℕ) : Option String :=
  if !has_additional_info contacts && !showDefault then none
  else if (contacts_with_info contacts maxContacts).isEmpty && showDefault then
    some (if 0 < msgs.length then msgs.getD (draw % msgs.length) fallback else fallback)
  else none


/-- Contact inputs used by the concrete scenarios. -/
def kContact : Contact := ⟨"KA1ABC", "", "", "", "", "", "", "", "", "", ""⟩

/-- A contact with a POTA reference, for witnesses that need auxiliary data. -/
def potaContact : Contact := ⟨"KA1ABC", "", "", "", "", "", "", "", "", "US-0001", ""⟩

/-!  Helper lemmas. -/

theorem decLT_iff (a b : Dec) : decLT a b = true ↔ a.val < b.val := by
  unfold decLT Dec.val
  rw [decide_eq_true_iff]
  rw [div_lt_div_iff₀ (by positivity) (by positivity)]
  constructor
  · intro h
    exact_mod_cast h
  · intro h
    exact_mod_cast h

theorem decLE_iff (a b : Dec) : decLE a b = true ↔ a.val ≤ b.val := by
  unfold decLE Dec.val
  rw [decide_eq_true_iff]
  rw [div_le_div_iff₀ (by positivity) (by positivity)]
  constructor
  · intro h
    exact_mod_cast h
  · intro h
    exact_mod_cast h

theorem div1000_val (x : Dec) : x.div1000.val = x.val / 1000 := by
  unfold Dec.div1000 Dec.val
  rw [pow_add]
  push_cast
  ring

theorem dec1000_val : dec1000.val = 1000 := by
  unfold dec1000 Dec.val
  norm_num

theorem truncStep_length (s : List Char) (h : 4 ≤ s.length) :
    (truncStep s).length = s.length - 1 := by
  simp only [truncStep, List.length_append, List.length_take, List.length_cons,
    List.length_nil]
  omega

theorem fitLoop5_exit (measure : List Char → ℕ) (limit : ℤ) :
    ∀ s : List Char,
      (measure (fitLoop5 measure limit s) : ℤ) ≤ limit ∨ (fitLoop5 measure limit s).length ≤ 5 := by
  have key : ∀ (n : ℕ) (s : List Char), s.length ≤ n →
      (measure (fitLoop5 measure limit s) : ℤ) ≤ limit ∨
        (fitLoop5 measure limit s).length ≤ 5 := by
    intro n
    induction n with
    | zero =>
      intro s hs
      rw [fitLoop5]
      rw [dif_neg (by omega)]
      omega
    | succ n ih =>
      intro s hs
      rw [fitLoop5]
      by_cases h : limit < (measure s : ℤ) ∧ 5 < s.length
      · rw [dif_pos h]
        apply ih
        rw [truncStep_length s (by omega)]
        omega
      · rw [dif_neg h]
        push_neg at h
        rcases le_or_lt (measure s : ℤ) limit with h2 | h2
        · exact Or.inl h2
        · exact Or.inr (h h2)
  exact fun s => key s.length s le_rfl

theorem fitLoop8_exit (measure : List Char → ℕ) (limit : ℤ) :
    ∀ s : List Char,
      (measure (fitLoop8 measure limit s) : ℤ) ≤ limit ∨ (fitLoop8 measure limit s).length ≤ 8 := by
  have key : ∀ (n : ℕ) (s : List Char), s.length ≤ n →
      (measure (fitLoop8 measure limit s) : ℤ) ≤ limit ∨
        (fitLoop8 measure limit s).length ≤ 8 := by
    intro n
    induction n with
    | zero =>
      intro s hs
      rw [fitLoop8]
      rw [dif_neg (by omega)]
      omega
    | succ n ih =>
      intro s hs
      rw [fitLoop8]
      by_cases h : limit < (measure s : ℤ) ∧ 8 < s.length
      · rw [dif_pos h]
        apply ih
        rw [truncStep_length s (by omega)]
        omega
      · rw [dif_neg h]
        push_neg at h
        rcases le_or_lt (measure s : ℤ) limit with h2 | h2
        · exact Or.inl h2
        · exact Or.inr (h h2)
  exact fun s => key s.length s le_rfl

theorem chunksAux_fuel (n : ℕ) :
    ∀ (f₁ f₂ : ℕ) (l : List Contact), l.length ≤ f₁ → l.length ≤ f₂ →
      chunksAux (n + 1) f₁ l = chunksAux (n + 1) f₂ l := by
  intro f₁
  induction f₁ with
  | zero =>
    intro f₂ l h1 h2
    have : l = [] := List.eq_nil_of_length_eq_zero (by omega)
    subst this
    cases f₂ <;> rfl
  | succ f ih =>
    intro f₂ l h1 h2
    cases l with
    | nil => cases f₂ <;> rfl
    | cons x xs =>
      cases f₂ with
      | zero => simp at h2
      | succ g =>
        show List.take (n+1) (x :: xs) :: chunksAux (n+1) f (List.drop (n+1) (x :: xs)) =
          List.take (n+1) (x :: xs) :: chunksAux (n+1) g (List.drop (n+1) (x :: xs))
        congr 1
        apply ih
        · simp only [List.length_drop, List.length_cons]
          simp only [List.length_cons] at h1
          omega
        · simp only [List.length_drop, List.length_cons]
          simp only [List.length_cons] at h2
          omega

theorem chunks_cons (n : ℕ) (x : Contact) (xs : List Contact) :
    chunks (n + 1) (x :: xs) = List.take (n + 1) (x :: xs) :: chunks (n + 1) (List.drop n xs) := by
  show chunksAux (n+1) (x :: xs).length (x :: xs) = _
  have step : chunksAux (n+1) (x :: xs).length (x :: xs) =
      List.take (n+1) (x :: xs) :: chunksAux (n+1) xs.length (List.drop (n+1) (x :: xs)) := by
    simp only [List.length_cons]
    rfl
  rw [step]
  show _ = List.take (n + 1) (x :: xs) :: chunksAux (n+1) (List.drop n xs).length (List.drop n xs)
  congr 1
  rw [List.drop_succ_cons]
  apply chunksAux_fuel
  · simp only [List.length_drop]
    omega
  · exact le_rfl

theorem chunks_flatten (n : ℕ) :
    ∀ l : List Contact, (chunks (n + 1) l).flatten = l := by
  have key : ∀ (N : ℕ) (l : List Contact), l.length ≤ N → (chunks (n + 1) l).flatten = l := by
    intro N
    induction N with
    | zero =>
      intro l hl
      have : l = [] := List.eq_nil_of_length_eq_zero (by omega)
      subst this
      rfl
    | succ N ih =>
      intro l hl
      cases l with
      | nil => rfl
      | cons x xs =>
        rw [chunks_cons]
        rw [List.flatten_cons]
        rw [ih (List.drop n xs)
          (by simp only [List.length_drop]; simp only [List.length_cons] at hl; omega)]
        rw [show List.drop n xs = List.drop (n + 1) (x :: xs) from (List.drop_succ_cons ..).symm]
        exact List.take_append_drop (n + 1) (x :: xs)
  exact fun l => key l.length l le_rfl

theorem chunks_length (n : ℕ) :
    ∀ l : List Contact, (chunks (n + 1) l).length = (l.length + n) / (n + 1) := by
  have key : ∀ (N : ℕ) (l : List Contact), l.length ≤ N →
      (chunks (n + 1) l).length = (l.length + n) / (n + 1) := by
    intro N
    induction N with
    | zero =>
      intro l hl
      have : l = [] := List.eq_nil_of_length_eq_zero (by omega)
      subst this
      have h0 : (chunks (n + 1) ([] : List Contact)).length = 0 := rfl
      rw [h0, List.length_nil, Nat.div_eq_of_lt (by omega)]
    | succ N ih =>
      intro l hl
      cases l with
      | nil =>
        have h0 : (chunks (n + 1) ([] : List Contact)).length = 0 := rfl
        rw [h0, List.length_nil, Nat.div_eq_of_lt (by omega)]
      | cons x xs =>
        rw [chunks_cons]
        rw [List.length_cons]
        rw [ih (List.drop n xs) (by simp only [List.length_drop]; simp only [List.length_cons] at hl; omega)]
        simp only [List.length_drop, List.length_cons]
        rw [show xs.length + 1 + n = xs.length + (n + 1) by omega,
          Nat.add_div_right _ (Nat.succ_pos n)]
        congr 1
        rcases le_or_lt n xs.length with h | h
        · rw [show xs.length - n + n = xs.length by omega]
        · rw [show xs.length - n = 0 by omega]
          rw [Nat.div_eq_of_lt (by omega), Nat.div_eq_of_lt (by omega)]
  exact fun l => key l.length l le_rfl

theorem findGroup_nil (k : String) : findGroup k [] = [] := rfl

theorem findGroup_cons (k : String) (g : String × List Contact)
    (rest : List (String × List Contact)) :
    findGroup k (g :: rest) = if g.1 = k then g.2 else findGroup k rest := rfl

theorem insertGrouped_nil (k : String) (c : Contact) : insertGrouped k c [] = [(k, [c])] := rfl

theorem insertGrouped_cons (k : String) (c : Contact) (g : String × List Contact)
    (rest : List (String × List Contact)) :
    insertGrouped k c (g :: rest) =
      if g.1 = k then (g.1, g.2 ++ [c]) :: rest else g :: insertGrouped k c rest := rfl

theorem findGroup_insertGrouped (k k' : String) (c : Contact)
    (gs : List (String × List Contact)) :
    findGroup k (insertGrouped k' c gs) =
      if k = k' then findGroup k gs ++ [c] else findGroup k gs := by
  induction gs with
  | nil =>
    by_cases h : k = k'
    · subst h
      simp [insertGrouped_nil, findGroup_cons, findGroup_nil]
    · have h' : ¬ k' = k := fun hh => h hh.symm
      simp [insertGrouped_nil, findGroup_cons, findGroup_nil, h, h']
  | cons g rest ih =>
    rw [insertGrouped_cons]
    by_cases hg : g.1 = k'
    · by_cases hk : g.1 = k
      · have hkk : k = k' := by rw [← hk, hg]
        simp [findGroup_cons, hg, hk, hkk]
      · have hkk : ¬ k = k' := fun hh => hk (hg.trans hh.symm)
        have hk2 : ¬ k' = k := fun hh => hkk hh.symm
        simp [findGroup_cons, hg, hk, hkk, hk2]
    · by_cases hk : g.1 = k
      · have hkk : ¬ k = k' := fun hh => hg (hk.trans hh)
        simp [findGroup_cons, hg, hk, hkk, ih]
      · simp [findGroup_cons, hg, hk, ih]

theorem keys_insertGrouped (k : String) (c : Contact) (gs : List (String × List Contact)) :
    (insertGrouped k c gs).map Prod.fst =
      if k ∈ gs.map Prod.fst then gs.map Prod.fst else gs.map Prod.fst ++ [k] := by
  induction gs with
  | nil => simp [insertGrouped_nil]
  | cons g rest ih =>
    rw [insertGrouped_cons]
    by_cases hg : g.1 = k
    · have hmem : k ∈ (g :: rest).map Prod.fst := by
        simp only [List.map_cons, List.mem_cons]
        exact Or.inl hg.symm
      rw [if_pos hg, if_pos hmem]
      simp
    · rw [if_neg hg]
      simp only [List.map_cons, ih]
      by_cases hm : k ∈ rest.map Prod.fst
      · rw [if_pos hm, if_pos (List.mem_cons_of_mem g.1 hm)]
      · have hni : k ∉ g.1 :: rest.map Prod.fst := by
          simp only [List.mem_cons]
          rintro (h | h)
          · exact hg h.symm
          · exact hm h
        rw [if_neg hm, if_neg hni]
        simp

theorem firstSeenAux_congr :
    ∀ (l : List String) (s₁ s₂ : List String), (∀ x, x ∈ s₁ ↔ x ∈ s₂) →
      firstSeenAux s₁ l = firstSeenAux s₂ l := by
  intro l
  induction l with
  | nil => intros; rfl
  | cons a t ih =>
    intro s₁ s₂ h
    simp only [firstSeenAux]
    by_cases ha : a ∈ s₁
    · rw [if_pos ha, if_pos ((h a).mp ha), ih s₁ s₂ h]
    · rw [if_neg ha, if_neg (fun hb => ha ((h a).mpr hb))]
      congr 1
      apply ih
      intro x
      simp only [List.mem_cons]
      exact or_congr Iff.rfl (h x)

theorem keys_foldl :
    ∀ (l : List Contact) (acc : List (String × List Contact)),
      ((l.foldl (fun acc c => insertGrouped (upperCall c) c acc) acc).map Prod.fst) =
        acc.map Prod.fst ++ firstSeenAux (acc.map Prod.fst) (l.map upperCall) := by
  intro l
  induction l with
  | nil => intro acc; simp [firstSeenAux]
  | cons c t ih =>
    intro acc
    rw [List.foldl_cons, ih, keys_insertGrouped]
    simp only [List.map_cons, firstSeenAux]
    by_cases hm : upperCall c ∈ acc.map Prod.fst
    · rw [if_pos hm, if_pos hm]
    · rw [if_neg hm, if_neg hm, List.append_assoc, List.singleton_append]
      congr 2
      apply firstSeenAux_congr
      intro x
      simp only [List.mem_append, List.mem_cons, List.mem_singleton]
      tauto

theorem findGroup_foldl :
    ∀ (l : List Contact) (acc : List (String × List Contact)) (k : String),
      findGroup k (l.foldl (fun acc c => insertGrouped (upperCall c) c acc) acc) =
        findGroup k acc ++ l.filter (fun c => upperCall c == k) := by
  intro l
  induction l with
  | nil => intro acc k; simp
  | cons c t ih =>
    intro acc k
    rw [List.foldl_cons, ih, findGroup_insertGrouped]
    by_cases h : k = upperCall c
    · subst h
      simp [List.filter_cons, List.append_assoc]
    · rw [if_neg h]
      have hb : (upperCall c == k) = false := by
        simp only [beq_eq_false_iff_ne, ne_eq]
        exact fun hh => h hh.symm
      simp [List.filter_cons, hb]

theorem firstSeenAux_nodup :
    ∀ (l : List String) (seen : List String),
      (firstSeenAux seen l).Nodup ∧ ∀ x ∈ firstSeenAux seen l, x ∉ seen := by
  intro l
  induction l with
  | nil => intro seen; simp [firstSeenAux]
  | cons a t ih =>
    intro seen
    simp only [firstSeenAux]
    by_cases ha : a ∈ seen
    · rw [if_pos ha]
      exact ih seen
    · rw [if_neg ha]
      obtain ⟨hnd, hmem⟩ := ih (a :: seen)
      constructor
      · rw [List.nodup_cons]
        exact ⟨fun hx => hmem a hx (List.mem_cons_self a seen), hnd⟩
      · intro x hx
        rcases List.mem_cons.mp hx with rfl | hx'
        · exact ha
        · exact fun hxs => hmem x hx' (List.mem_cons_of_mem a hxs)

theorem findGroup_of_mem :
    ∀ (gs : List (String × List Contact)), (gs.map Prod.fst).Nodup →
      ∀ (k : String) (g : List Contact), (k, g) ∈ gs → findGroup k gs = g := by
  intro gs
  induction gs with
  | nil => intro _ k g hm; simp at hm
  | cons p rest ih =>
    intro hnd k g hm
    simp only [List.map_cons, List.nodup_cons] at hnd
    rcases List.mem_cons.mp hm with heq | hmem
    · rw [← heq]
      simp [findGroup_cons]
    · have hk : p.1 ≠ k := by
        intro hh
        apply hnd.1
        rw [hh]
        exact List.mem_map.mpr ⟨(k, g), hmem, rfl⟩
      rw [findGroup_cons, if_neg hk]
      exact ih hnd.2 k g hmem

theorem groupByCall_keys (l : List Contact) :
    (groupByCall l).map Prod.fst = firstSeen (l.map upperCall) := by
  unfold groupByCall firstSeen
  rw [keys_foldl]
  simp

theorem groupByCall_keys_nodup (l : List Contact) :
    ((groupByCall l).map Prod.fst).Nodup := by
  rw [groupByCall_keys]
  exact (firstSeenAux_nodup (l.map upperCall) []).1

theorem groupByCall_findGroup (l : List Contact) (k : String) :
    findGroup k (groupByCall l) = l.filter (fun c => upperCall c == k) := by
  unfold groupByCall
  rw [findGroup_foldl]
  simp [findGroup_nil]

theorem groupByCall_mem (l : List Contact) (k : String) (g : List Contact)
    (h : (k, g) ∈ groupByCall l) : g = l.filter (fun c => upperCall c == k) := by
  rw [← groupByCall_findGroup]
  exact (findGroup_of_mem (groupByCall l) (groupByCall_keys_nodup l) k g h).symm

/-!  Claim theorems. -/

/-- Claim C1: pagination groups records by uppercased call preserving
first-seen group order and within-group input order, splits each group into
consecutive chunks of size `P` (last chunk possibly shorter), the total number
of emitted cards equals the sum over callsigns of `ceil(count / P)`, and
concatenating one callsign's chunks in emission order reproduces that
callsign's records in their original input order. -/
theorem pagination_spec (l : List Contact) (P : ℕ) (hP : 1 ≤ P)
    (_hcall : ∀ c ∈ l, c.call ≠ "") :
    totalCards P l = ((groupByCall l).map (fun g => (g.2.length + P - 1) / P)).sum
  ∧ (groupByCall l).map Prod.fst = firstSeen (l.map upperCall)
  ∧ ∀ k g, (k, g) ∈ groupByCall l →
      g = l.filter (fun c => upperCall c == k) ∧ (chunks P g).flatten = g := by
  obtain ⟨m, rfl⟩ : ∃ m, P = m + 1 := ⟨P - 1, by omega⟩
  refine ⟨?_, groupByCall_keys l, ?_⟩
  · unfold totalCards
    congr 1
    apply List.map_congr_left
    intro g _
    rw [chunks_length]
    congr 1
  · intro k g hm
    exact ⟨groupByCall_mem l k g hm, chunks_flatten m g⟩

/-- Witness for C1 at a concrete input. -/
theorem pagination_spec_witness :
    (groupByCall [kContact]).map Prod.fst = firstSeen ([kContact].map upperCall) :=
  (pagination_spec [kContact] 1 (by decide) (by decide)).2.1

/-- Claim C2 is refuted at the input `"7100000"`: the code divides a
kHz-scale value by 1000 once, so the result is `"7100.000"`, not the
`"7.100"` the claim states. -/
theorem formatFreq_khz_refuted :
    format_freq "7100000" = "7100.000" ∧ ("7100.000" : String) ≠ "7.100" := by
  constructor
  · decide
  · decide

/-- Claim C2 (amended): `formatFrequency` maps `"7100000"` to `"7100.000"`
and `"7.1"` (as well as `"7100"`) to `"7.100"`; a parsed value above 1000 is
interpreted as kHz and divided by 1000, a value at most 1000 is rendered
as-is, both with exactly three fractional digits; empty input yields `"?"`
and unparseable input yields the first 8 characters of the raw string. -/
theorem formatFreq_spec :
    format_freq "" = "?"
  ∧ format_freq "7100000" = "7100.000"
  ∧ format_freq "7.1" = "7.100"
  ∧ format_freq "7100" = "7.100"
  ∧ (∀ s q, s ≠ "" → parseFloatQ s = some q → (1000 : ℚ) < q.val →
      format_freq s = fmt3 q.div1000)
  ∧ (∀ q : Dec, q.div1000.val = q.val / 1000)
  ∧ (∀ s q, s ≠ "" → parseFloatQ s = some q → q.val ≤ (1000 : ℚ) → format_freq s = fmt3 q)
  ∧ (∀ s, s ≠ "" → parseFloatQ s = none → format_freq s = s.take 8) := by
  refine ⟨by decide, by decide, by decide, by decide, ?_, div1000_val, ?_, ?_⟩
  · intro s q hne hp hq
    simp only [format_freq, if_neg hne, hp]
    rw [if_pos (by rw [decLT_iff, dec1000_val]; exact hq)]
  · intro s q hne hp hq
    simp only [format_freq, if_neg hne, hp]
    rw [if_neg (by rw [decLT_iff, dec1000_val]; exact not_lt.mpr hq)]
  · intro s hne hp
    simp only [format_freq, if_neg hne, hp]

/-- Witness for the amended C2 at a concrete input. -/
theorem formatFreq_spec_witness : format_freq "42" = fmt3 ⟨42, 0⟩ :=
  formatFreq_spec.2.2.2.2.2.2.1 "42" ⟨42, 0⟩ (by decide) (by decide)
    (by norm_num [Dec.val])

/-- Claim C3: `formatMode` resolves by exact precedence after uppercasing
both inputs: empty mode gives `"?"`; a special-pair hit on the mode alone
wins, then a hit on `"mode/submode"`, then the digital-main rule (submode if
non-empty else mode), otherwise `"mode/submode"` truncated to 10 characters
when the submode is non-empty and differs from the mode, else the mode
truncated to 8 characters; in particular `formatMode "FT8" "" = "FT8"` and
`formatMode "SSB" "USB" = "USB"` under the default special-pair table. -/
theorem formatMode_spec :
    (∀ sm, format_mode "" sm = "?")
  ∧ (∀ m sm v, m ≠ "" → lookupSpecial (umode m) = some v → format_mode m sm = v)
  ∧ (∀ m sm v, m ≠ "" → lookupSpecial (umode m) = none →
      lookupSpecial (umode m ++ "/" ++ umode sm) = some v → format_mode m sm = v)
  ∧ (∀ m sm, m ≠ "" → lookupSpecial (umode m) = none →
      lookupSpecial (umode m ++ "/" ++ umode sm) = none → umode m ∈ digital_main →
      format_mode m sm = if umode sm ≠ "" then umode sm else umode m)
  ∧ (∀ m sm, m ≠ "" → lookupSpecial (umode m) = none →
      lookupSpecial (umode m ++ "/" ++ umode sm) = none → umode m ∉ digital_main →
      format_mode m sm =
        if umode sm ≠ "" ∧ umode sm ≠ umode m then takeChars 10 (umode m ++ "/" ++ umode sm)
        else takeChars 8 (umode m))
  ∧ format_mode "FT8" "" = "FT8"
  ∧ format_mode "SSB" "USB" = "USB" := by
  refine ⟨fun sm => rfl, ?_, ?_, ?_, ?_, by decide, by decide⟩
  · intro m sm v hm hsp
    simp only [format_mode, if_neg hm, hsp]
  · intro m sm v hm h1 h2
    simp only [format_mode, if_neg hm, h1, h2]
  · intro m sm hm h1 h2 hd
    simp only [format_mode, if_neg hm, h1, h2]
    rw [if_pos hd]
  · intro m sm hm h1 h2 hd
    simp only [format_mode, if_neg hm, h1, h2]
    rw [if_neg hd]

/-- Witness for C3 at a concrete input. -/
theorem formatMode_spec_witness : format_mode "ft8" "zzz" = "FT8" :=
  formatMode_spec.2.1 "ft8" "zzz" "FT8" (by decide) (by decide)

/-- Claim C4: the table row height equals
`clamp((tableHeight - headerHeight - 20) / (recordsOnPage + 1), min, max)`
with floor division by exactly `recordsOnPage + 1`, where `recordsOnPage =
min(page record count, max_contacts)`; whenever `min ≤ max` the result lies
within `[min, max]`. -/
theorem rowHeight_clamped (th hh minrh maxrh : ℤ) (n mc : ℕ) (h : minrh ≤ maxrh) :
    row_height th hh minrh maxrh n mc =
      min (max minrh ((th - hh - 20).fdiv (min (n : ℤ) (mc : ℤ) + 1))) maxrh
  ∧ minrh ≤ row_height th hh minrh maxrh n mc
  ∧ row_height th hh minrh maxrh n mc ≤ maxrh := by
  refine ⟨rfl, ?_, ?_⟩
  · exact le_min (le_max_left _ _) h
  · exact min_le_right _ _

/-- Witness for C4 at the default configuration and a full page. -/
theorem rowHeight_clamped_witness :
    25 ≤ row_height 315 40 25 40 5 5 ∧ row_height 315 40 25 40 5 5 ≤ 40 :=
  ⟨(rowHeight_clamped 315 40 25 40 5 5 (by decide)).2.1,
   (rowHeight_clamped 315 40 25 40 5 5 (by decide)).2.2⟩

/-- Claim C5: whenever the table offset leaves the fixed headroom
(`table_y > 100`), card `i+1` of a callsign's chunks carries the text
`"QSL - Confirming {N} QSO{s}"` with `N` the callsign's total record count
across all of its pages, the card counter being appended exactly when the
callsign spans more than one card; 7 records at capacity 5 give two cards of
5 and 2 records whose second text is
`"QSL - Confirming 7 QSOs with KA1ABC (Card 2 of 2)"`. -/
theorem confirmationText_spec (ty : ℤ) (mc : ℕ) (cs : String) (g : List Contact) (P i : ℕ)
    (hty : 100 < ty) (hg : g ≠ []) (hi : i < (chunkCards ty mc cs g P).length) :
    (chunkCards ty mc cs g P).get ⟨i, hi⟩ =
      some (confirmText g.length cs (i + 1) (chunks P g).length)
  ∧ (∀ tq c n, confirmText tq c n 1 = confirmBase tq c)
  ∧ (∀ tq c n tot, 1 < tot → confirmText tq c n tot =
      confirmBase tq c ++ " (Card " ++ toString n ++ " of " ++ toString tot ++ ")")
  ∧ (chunks 5 (List.replicate 7 kContact)).map List.length = [5, 2]
  ∧ chunkCards 472 5 "KA1ABC" (List.replicate 7 kContact) 5 =
      [some "QSL - Confirming 7 QSOs with KA1ABC (Card 1 of 2)",
       some "QSL - Confirming 7 QSOs with KA1ABC (Card 2 of 2)"] := by
  refine ⟨?_, ?_, ?_, by decide, by decide⟩
  · have hi' : i < (chunks P g).enum.length := by
      simp only [chunkCards, List.length_map] at hi
      exact hi
    rw [List.get_eq_getElem]
    simp only [chunkCards, List.getElem_map, List.getElem_enum]
    simp only [qslConfirmText, if_pos hty]
    rw [if_neg (fun h => hg (List.length_eq_zero.mp h))]
  · intro tq c n
    unfold confirmText
    rw [if_neg (by omega)]
  · intro tq c n tot h
    unfold confirmText
    rw [if_pos h]

/-- Witness for C5: the second card of the 7-record scenario. -/
theorem confirmationText_spec_witness :
    confirmText 7 "KA1ABC" 2 2 =
      confirmBase 7 "KA1ABC" ++ " (Card " ++ toString 2 ++ " of " ++ toString 2 ++ ")" :=
  (confirmationText_spec 472 5 "KA1ABC" (List.replicate 7 kContact) 5 1 (by decide)
    (by decide) (by decide)).2.2.1 7 "KA1ABC" 2 2 (by decide)

/-- Claim C6: a non-empty explicit band is returned verbatim; otherwise the
frequency is parsed (values above 1000 divided by 1000), the band table is
scanned in order returning the first matching label, a non-matching frequency
falls back to the rounded integer followed by `"MHz"`, and any parse failure
yields the empty string; with the standard table `"7100"` resolves to
`"40m"` and `"999999"` to `"1000MHz"`. -/
theorem resolveBand_spec :
    (∀ b f, b ≠ "" → resolveBand b f = b)
  ∧ resolveBand "" "7100" = "40m"
  ∧ resolveBand "" "999999" = "1000MHz"
  ∧ (∃ pre, resolveBand "" "999999" = pre ++ "MHz")
  ∧ (∀ s, parseFloatQ s = none → get_band s = "")
  ∧ (∀ s v, s ≠ "" → parseFloatQ s = some v →
      get_band s = bandLookup (if decLT dec1000 v then v.div1000 else v))
  ∧ (∀ freq, bands.find? (fun b => decLE b.1 freq && decLE freq b.2.1) = none →
      bandLookup freq = fmt0 freq ++ "MHz")
  ∧ (∀ a b : Dec, decLT a b = true ↔ a.val < b.val)
  ∧ (∀ a b : Dec, decLE a b = true ↔ a.val ≤ b.val) := by
  refine ⟨?_, by decide, by decide, ⟨"1000", by decide⟩, ?_, ?_, ?_, decLT_iff, decLE_iff⟩
  · intro b f hb
    unfold resolveBand
    rw [if_pos hb]
  · intro s hp
    simp [get_band, hp]
  · intro s v hs hp
    simp only [get_band, if_neg hs, hp]
  · intro freq hf
    simp only [bandLookup, hf]

/-- Witness for C6: an explicit band wins verbatim. -/
theorem resolveBand_spec_witness : resolveBand "20m" "7100" = "20m" :=
  resolveBand_spec.1 "20m" "7100" (by decide)

/-- Claim C7: both info-panel iterative-fit loops terminate with their exit
condition established for an arbitrary measuring function (each step strips
four characters and appends a three-character ellipsis, strictly shortening
the string), and under the code's own width estimate of seven pixels per
character the final width fits the allotted space: at most 180 pixels for the
default `date_band` geometry, and at most the available POTA width whenever
that width is at least 56 pixels (the estimate of the eight-character
floor). -/
theorem infoPanelFit_spec (measure : List Char → ℕ) (limit maxW : ℤ) (s u : List Char)
    (hW : 56 ≤ maxW) :
    ((measure (fitLoop5 measure limit s) : ℤ) ≤ limit ∨ (fitLoop5 measure limit s).length ≤ 5)
  ∧ ((measure (fitLoop8 measure limit s) : ℤ) ≤ limit ∨ (fitLoop8 measure limit s).length ≤ 8)
  ∧ (4 ≤ s.length → (truncStep s).length = s.length - 1)
  ∧ (fallbackMeasure (truncate_date_band fallbackMeasure 190 u) : ℤ) ≤ 180
  ∧ (fallbackMeasure (truncate_pota fallbackMeasure maxW u) : ℤ) ≤ maxW := by
  refine ⟨fitLoop5_exit measure limit s, fitLoop8_exit measure limit s,
    truncStep_length s, ?_, ?_⟩
  · unfold truncate_date_band
    by_cases h : (190 : ℤ) - 10 < (fallbackMeasure u : ℤ)
    · rw [if_pos h]
      have hm : ∀ t : List Char, (fallbackMeasure t : ℤ) = t.length * 7 := fun t => by
        simp [fallbackMeasure]
      rcases fitLoop5_exit fallbackMeasure (190 - 20) u with h1 | h1
      · omega
      · rw [hm]
        omega
    · rw [if_neg h]
      omega
  · unfold truncate_pota
    by_cases h : maxW < (fallbackMeasure u : ℤ)
    · rw [if_pos h]
      have hm : ∀ t : List Char, (fallbackMeasure t : ℤ) = t.length * 7 := fun t => by
        simp [fallbackMeasure]
      rcases fitLoop8_exit fallbackMeasure (maxW - 20) u with h1 | h1
      · omega
      · rw [hm]
        omega
    · rw [if_neg h]
      omega

/-- Witness for C7: a long POTA string fits a 100-pixel slot. -/
theorem infoPanelFit_spec_witness :
    (fallbackMeasure (truncate_pota fallbackMeasure 100
      "POTA: US-0001 plus a very long trailing descriptive field".data) : ℤ) ≤ 100 :=
  (infoPanelFit_spec fallbackMeasure 0 100 "abc".data
    "POTA: US-0001 plus a very long trailing descriptive field".data (by decide)).2.2.2.2

/-- Claim C8 is refuted at the input `"::"`: the emptiness test runs before
separator stripping, so an all-separator string returns its own first four
characters, not `"?"`. -/
theorem formatTime_separators_refuted :
    format_time "::" = "::" ∧ ("::" : String) ≠ "?" := by
  constructor
  · decide
  · decide

/-- Claim C8 (amended): `formatTime` returns `"?"` only for empty raw input,
tested before stripping; otherwise it strips `:` and `.` (and surrounding
whitespace): exactly 3 characters remaining are left-padded with `0`, 4 or
more keep the first 4, and anything else — including input such as `"::"`
that strips to empty — returns the first 4 characters of the original raw
string. -/
theorem formatTime_spec :
    format_time "" = "?"
  ∧ format_time "::" = "::"
  ∧ (∀ s, s ≠ "" → (stripTime s).length = 3 → format_time s = "0" ++ stripTime s)
  ∧ (∀ s, s ≠ "" → 4 ≤ (stripTime s).length → format_time s = (stripTime s).take 4)
  ∧ (∀ s, s ≠ "" → (stripTime s).length ≠ 3 → (stripTime s).length < 4 →
      format_time s = s.take 4) := by
  refine ⟨by decide, by decide, ?_, ?_, ?_⟩
  · intro s hs h3
    simp only [format_time, if_neg hs]
    rw [if_pos h3]
  · intro s hs h4
    simp only [format_time, if_neg hs]
    rw [if_neg (by omega), if_pos h4]
  · intro s hs h3 h4
    simp only [format_time, if_neg hs]
    rw [if_neg h3, if_neg (by omega)]

/-- Witness for the amended C8 at a concrete input. -/
theorem formatTime_spec_witness : format_time "12:34:56" = (stripTime "12:34:56").take 4 :=
  formatTime_spec.2.2.2.1 "12:34:56" (by decide) (by decide)

/-- Claim C9 is refuted: the fallback message is chosen by an unseeded
`random.choice` from the global generator, so two renders of the same page
under the same configuration, consuming successive draws of that generator,
can produce different output. -/
theorem infoPanel_tworun_refuted :
    infoPanelDefaultMsg [kContact] 5 true default_messages "Thanks for the contact(s)!" 0 ≠
      infoPanelDefaultMsg [kContact] 5 true default_messages "Thanks for the contact(s)!" 1 := by
  decide

/-- Claim C9 (amended): the rendering pipeline is deterministic as a function
of records, configuration and the pseudorandom draw consumed by the
fallback-message path; whenever that path is not taken (some listed record
carries auxiliary data, or the default message is disabled) the output is
independent of the draw, and on the fallback path the drawn message is the
configured list indexed by the draw — so two-run determinism holds exactly
when the global generator's draw is fixed. -/
theorem infoPanelDeterminism_spec :
    (∀ cs mc sd msgs fb d₁ d₂, ((contacts_with_info cs mc).isEmpty && sd) = false →
      infoPanelDefaultMsg cs mc sd msgs fb d₁ = infoPanelDefaultMsg cs mc sd msgs fb d₂)
  ∧ (∀ cs mc msgs fb d, (contacts_with_info cs mc).isEmpty = true →
      infoPanelDefaultMsg cs mc true msgs fb d =
        some (if 0 < msgs.length then msgs.getD (d % msgs.length) fb else fb)) := by
  constructor
  · intro cs mc sd msgs fb d₁ d₂ h
    simp [infoPanelDefaultMsg, h]
  · intro cs mc msgs fb d h
    simp [infoPanelDefaultMsg, h]

/-- Witness for the amended C9: an empty page draws the indexed message. -/
theorem infoPanelDeterminism_spec_witness :
    infoPanelDefaultMsg [] 5 true default_messages "73" 3 =
      some (if 0 < default_messages.length
        then default_messages.getD (3 % default_messages.length) "73" else "73") :=
  infoPanelDeterminism_spec.2 [] 5 default_messages "73" 3 (by decide)

/-- Claim C10 is refuted: with the default configuration the table layout
returns bottom Y 562 for a one-record page and 722 for a five-record page,
while the info panel's vertical origin is the configuration-only value 772 in
both cases — the returned coordinate is discarded, so the panel origin is not
derived from it. -/
theorem tableBottom_discarded_refuted :
    draw_contact_table_return 1050 ⟨45, 2⟩ ⟨3, 1⟩ 40 25 40 5 1 = 562
  ∧ draw_contact_table_return 1050 ⟨45, 2⟩ ⟨3, 1⟩ 40 25 40 5 5 = 722
  ∧ additional_info_section_y 1050 ⟨45, 2⟩ ⟨3, 1⟩ 10 = 772
  ∧ (772 : ℤ) ≠ 562 ∧ (772 : ℤ) ≠ 722 := by
  refine ⟨by decide, by decide, by decide, by decide, by decide⟩

/-- Claim C10 (amended): the table layout returns the bottom Y coordinate of
the rendered block — header bottom plus `renderedRows × rowHeight` plus the
fixed 10-pixel padding — but the composer discards that value: the info
panel's vertical origin is computed from configuration alone as
`table_y + table_height + y_offset - 25`. -/
theorem tableBottom_spec (cardH : ℤ) (yPct hPct : Dec) (headerH minRH maxRH yOffset : ℤ)
    (mc n : ℕ) :
    draw_contact_table_return cardH yPct hPct headerH minRH maxRH mc n =
      (Dec.pyInt ⟨cardH * yPct.num, yPct.exp⟩ + headerH) +
        min (n : ℤ) (mc : ℤ) *
          min (max minRH ((Dec.pyInt ⟨cardH * hPct.num, hPct.exp⟩ - headerH - 20).fdiv
            (min (n : ℤ) (mc : ℤ) + 1))) maxRH + 10
  ∧ additional_info_section_y cardH yPct hPct yOffset =
      Dec.pyInt ⟨cardH * yPct.num, yPct.exp⟩ + Dec.pyInt ⟨cardH * hPct.num, hPct.exp⟩ +
        yOffset - 25 :=
  ⟨rfl, rfl⟩
